import Mathlib

/-!
# NoOutputAssembly: the dry-run assembly backend of libyul

A shallow embedding of `libyul/backends/evm/NoOutputAssembly.cpp`:

* `NoOutputAssembly` is the object, whose only member is `m_stackHeight`, a
  C++ `int`: every `+=` and `-` on it is reduced modulo `2^32` into the range
  of `int` (`wrapInt`);
* every member function is a function in `Effect NoOutputAssembly`, which
  either returns normally or throws (`yulAssert(false, ...)`), and in both
  cases leaves an object state behind;
* the `generateCode` lambda installed by the constructor of
  `NoOutputEVMDialect` is written once, against the two virtual member
  functions of `AbstractAssembly` it calls and against the visitor callback.

What the file includes from other directories (`libevmasm/Instruction.h`,
`libyul/Dialect.h`, `NoOutputAssembly.h`) is not part of the sources at hand;
the arity table `instructionInfo` is a parameter throughout.
-/

/-! ## Calls that may throw -/

/-- The outcome of a call on an object of state type `σ`: the value returned
or the message of the assertion thrown, together with the state of the object
afterwards (a C++ exception leaves the object as it was when thrown). -/
abbrev Effect (σ α : Type) : Type := σ → Except String α × σ

namespace Effect

/-- Normal return. -/
def ret {σ α : Type} (a : α) : Effect σ α := fun s => (Except.ok a, s)

/-- Sequencing of statements: an exception of the first statement skips the second. -/
def andThen {σ α β : Type} (x : Effect σ α) (f : α → Effect σ β) : Effect σ β :=
  fun s =>
    match x s with
    | (Except.ok a, s') => f a s'
    | (Except.error e, s') => (Except.error e, s')

/-- A failed `yulAssert`: throws, the object is untouched. -/
def yulAssertFalse {σ α : Type} (message : String) : Effect σ α :=
  fun s => (Except.error message, s)

/-- An assignment to the members of the object. -/
def update {σ : Type} (f : σ → σ) : Effect σ Unit := fun s => (Except.ok (), f s)

end Effect

instance (σ : Type) : Monad (Effect σ) where
  pure := Effect.ret
  bind := Effect.andThen

/-! ## The types of libevmasm and of AbstractAssembly that the file uses -/

/-- Modelled from the spec: `enum class Instruction` of libevmasm/Instruction.h is
not among the sources. The constructors are the opcodes that
NoOutputAssembly.cpp names (`JUMPDEST`, `JUMP`, `JUMPI`, `POP`, and `PUSH1` as
the first of the push family), `ADD` of the spec's end-to-end scenario, and
`other` for every remaining opcode byte. -/
inductive Instruction where
  | ADD
  | POP
  | JUMP
  | JUMPI
  | JUMPDEST
  | PUSH (immediateBytes : Nat)
  | other (opcode : Nat)
  deriving DecidableEq, Repr

/-- The opcode `Instruction::PUSH1`. -/
abbrev Instruction.PUSH1 : Instruction := Instruction.PUSH 1

/-- Modelled from the spec: `evmasm::pushInstruction` of libevmasm/Instruction.h is
not among the sources. The spec describes `pushInstruction(1)` as the
single-argument push instruction; `pushInstruction n` is the push instruction
with `n` immediate bytes. -/
def pushInstruction (number : Nat) : Instruction := Instruction.PUSH number

/-- The two fields of `evmasm::InstructionInfo` that are read: the number of
stack items an instruction consumes and the number it produces (both `int`). -/
structure InstructionInfo where
  args : Int
  ret : Int
  deriving DecidableEq, Repr

/-- Modelled from the spec: `AbstractAssembly::JumpType` of
libyul/backends/evm/AbstractAssembly.h is not among the sources; the spec names
the ordinary jump, the other two kinds mark function entry and exit. -/
inductive JumpType where
  | Ordinary
  | IntoFunction
  | OutOfFunction
  deriving DecidableEq, Repr

/-- Type `AbstractAssembly::LabelID` (`size_t`). -/
abbrev LabelID : Type := Nat

/-- Type `AbstractAssembly::SubID` (`size_t`). -/
abbrev SubID : Type := Nat

/-- Type `u256` values; every member function ignores them. -/
abbrev U256 : Type := Nat

/-- Type `bytes`, a vector of octets. -/
abbrev Bytes : Type := List (Fin 256)

/-! ## The C++ type `int` -/

/-- The least value of a 32-bit `int`. -/
def INT_MIN : Int := -2147483648

/-- The greatest value of a 32-bit `int`. -/
def INT_MAX : Int := 2147483647

/-- Whether an integer is a value of the type `int`. -/
def inIntRange (x : Int) : Prop := INT_MIN ≤ x ∧ x ≤ INT_MAX

instance (x : Int) : Decidable (inIntRange x) :=
  inferInstanceAs (Decidable (INT_MIN ≤ x ∧ x ≤ INT_MAX))

/-- The value an `int` holds after an addition or subtraction whose exact result
is `x`: `x` reduced modulo `2^32` into `INT_MIN .. INT_MAX` (two's complement).
Within the range it is `x` itself. -/
def wrapInt (x : Int) : Int := (x + 2147483648) % 4294967296 - 2147483648

/-! ## NoOutputAssembly -/

/-- The object: its single data member. `m_stackHeight` is declared in
NoOutputAssembly.h, which is not among the sources; it is an `int`, like the
`int _stackDiffAfter` that is added to it and like the fields `ret` and `args`
of `InstructionInfo`. Its values lie in `INT_MIN .. INT_MAX`, and every member
function that assigns it stores a wrapped value. -/
structure NoOutputAssembly where
  m_stackHeight : Int
  deriving DecidableEq, Repr

namespace NoOutputAssembly

/-- Member function `void NoOutputAssembly::appendInstruction(evmasm::Instruction _instr)` -/
def appendInstruction (instructionInfo : Instruction → InstructionInfo)
    (_instr : Instruction) : Effect NoOutputAssembly Unit :=
  Effect.update fun self =>
    let change := wrapInt ((instructionInfo _instr).ret - (instructionInfo _instr).args)
    { self with m_stackHeight := wrapInt (self.m_stackHeight + change) }

/-- Member function `void NoOutputAssembly::appendConstant(u256 const&)` -/
def appendConstant (instructionInfo : Instruction → InstructionInfo)
    (_ : U256) : Effect NoOutputAssembly Unit :=
  appendInstruction instructionInfo (pushInstruction 1)

/-- Member function `void NoOutputAssembly::appendLabel(LabelID)` -/
def appendLabel (instructionInfo : Instruction → InstructionInfo)
    (_ : LabelID) : Effect NoOutputAssembly Unit :=
  appendInstruction instructionInfo Instruction.JUMPDEST

/-- Member function `void NoOutputAssembly::appendLabelReference(LabelID)` -/
def appendLabelReference (instructionInfo : Instruction → InstructionInfo)
    (_ : LabelID) : Effect NoOutputAssembly Unit :=
  appendInstruction instructionInfo (pushInstruction 1)

/-- Member function `LabelID NoOutputAssembly::newLabelId()` -/
def newLabelId : Effect NoOutputAssembly LabelID :=
  pure 1

/-- Member function `LabelID NoOutputAssembly::namedLabel(string const&, size_t, size_t, optional<size_t>)` -/
def namedLabel (_ : String) (_ : Nat) (_ : Nat) (_ : Option Nat) :
    Effect NoOutputAssembly LabelID :=
  pure 1

/-- Member function `void NoOutputAssembly::appendLinkerSymbol(string const&)` -/
def appendLinkerSymbol (_ : String) : Effect NoOutputAssembly Unit :=
  Effect.yulAssertFalse "Linker symbols not yet implemented."

/-- Member function `void NoOutputAssembly::appendJump(int _stackDiffAfter, JumpType)`;
the argument is an `int`, a value in `INT_MIN .. INT_MAX`. -/
def appendJump (instructionInfo : Instruction → InstructionInfo)
    (_stackDiffAfter : Int) (_ : JumpType) : Effect NoOutputAssembly Unit := do
  appendInstruction instructionInfo Instruction.JUMP
  Effect.update fun self =>
    { self with m_stackHeight := wrapInt (self.m_stackHeight + _stackDiffAfter) }

/-- Member function `void NoOutputAssembly::appendJumpTo(LabelID _labelId, int _stackDiffAfter, JumpType _jumpType)` -/
def appendJumpTo (instructionInfo : Instruction → InstructionInfo)
    (_labelId : LabelID) (_stackDiffAfter : Int) (_jumpType : JumpType) :
    Effect NoOutputAssembly Unit := do
  appendLabelReference instructionInfo _labelId
  appendJump instructionInfo _stackDiffAfter _jumpType

/-- Member function `void NoOutputAssembly::appendJumpToIf(LabelID _labelId, JumpType)` -/
def appendJumpToIf (instructionInfo : Instruction → InstructionInfo)
    (_labelId : LabelID) (_ : JumpType) : Effect NoOutputAssembly Unit := do
  appendLabelReference instructionInfo _labelId
  appendInstruction instructionInfo Instruction.JUMPI

/-- Member function `void NoOutputAssembly::appendAssemblySize()` -/
def appendAssemblySize (instructionInfo : Instruction → InstructionInfo) :
    Effect NoOutputAssembly Unit :=
  appendInstruction instructionInfo Instruction.PUSH1

/-- Member function `pair<shared_ptr<AbstractAssembly>, SubID> NoOutputAssembly::createSubAssembly(std::string)`:
the assertion throws before the `return {}` is reached. -/
def createSubAssembly (_ : String) : Effect NoOutputAssembly (NoOutputAssembly × SubID) :=
  Effect.yulAssertFalse "Sub assemblies not implemented."

/-- Member function `void NoOutputAssembly::appendDataOffset(std::vector<SubID> const&)` -/
def appendDataOffset (instructionInfo : Instruction → InstructionInfo)
    (_ : List SubID) : Effect NoOutputAssembly Unit :=
  appendInstruction instructionInfo Instruction.PUSH1

/-- Member function `void NoOutputAssembly::appendDataSize(std::vector<SubID> const&)` -/
def appendDataSize (instructionInfo : Instruction → InstructionInfo)
    (_ : List SubID) : Effect NoOutputAssembly Unit :=
  appendInstruction instructionInfo Instruction.PUSH1

/-- Member function `SubID NoOutputAssembly::appendData(bytes const&)` -/
def appendData (_ : Bytes) : Effect NoOutputAssembly SubID :=
  pure 1

/-- Member function `void NoOutputAssembly::appendImmutable(std::string const&)` -/
def appendImmutable (_ : String) : Effect NoOutputAssembly Unit :=
  Effect.yulAssertFalse "loadimmutable not implemented."

/-- Member function `void NoOutputAssembly::appendImmutableAssignment(std::string const&)` -/
def appendImmutableAssignment (_ : String) : Effect NoOutputAssembly Unit :=
  Effect.yulAssertFalse "setimmutable not implemented."

end NoOutputAssembly

/-- Modelled from the spec: the arity table `instructionInfo` of libevmasm is not
among the sources. These are the entries the spec states: ADD `(2,1)`, POP
`(1,0)`, JUMP `(1,0)`, JUMPI `(2,0)`, the label marker JUMPDEST `(0,0)` and the
push instructions `(0,1)`; the remaining opcodes are given `(0,0)` here. It
serves as the concrete table of the worked examples. -/
def specInstructionInfo : Instruction → InstructionInfo
  | Instruction.ADD => { args := 2, ret := 1 }
  | Instruction.POP => { args := 1, ret := 0 }
  | Instruction.JUMP => { args := 1, ret := 0 }
  | Instruction.JUMPI => { args := 2, ret := 0 }
  | Instruction.JUMPDEST => { args := 0, ret := 0 }
  | Instruction.PUSH _ => { args := 0, ret := 1 }
  | Instruction.other _ => { args := 0, ret := 0 }

/-! ## The interface as seen by a caller -/

/-- A call of one member function of the assembly interface, with its arguments,
as a code generator issues it through `AbstractAssembly&`. -/
inductive Request where
  | appendInstruction (_instr : Instruction)
  | appendConstant (value : U256)
  | appendLabel (labelId : LabelID)
  | appendLabelReference (labelId : LabelID)
  | newLabelId
  | namedLabel (name : String) (numArgs : Nat) (numRets : Nat) (existingId : Option Nat)
  | appendLinkerSymbol (name : String)
  | appendJump (_stackDiffAfter : Int) (jumpType : JumpType)
  | appendJumpTo (_labelId : LabelID) (_stackDiffAfter : Int) (_jumpType : JumpType)
  | appendJumpToIf (_labelId : LabelID) (jumpType : JumpType)
  | appendAssemblySize
  | createSubAssembly (name : String)
  | appendDataOffset (subPath : List SubID)
  | appendDataSize (subPath : List SubID)
  | appendData (data : Bytes)
  | appendImmutable (identifier : String)
  | appendImmutableAssignment (identifier : String)
  deriving DecidableEq, Repr

namespace NoOutputAssembly

/-- Virtual dispatch: the member function of `NoOutputAssembly` that a request
reaches. The value is the handle returned (`LabelID` or `SubID`), `none` for the
`void` member functions. -/
def perform (instructionInfo : Instruction → InstructionInfo) :
    Request → Effect NoOutputAssembly (Option Nat)
  | Request.appendInstruction i => do appendInstruction instructionInfo i; pure none
  | Request.appendConstant v => do appendConstant instructionInfo v; pure none
  | Request.appendLabel l => do appendLabel instructionInfo l; pure none
  | Request.appendLabelReference l => do appendLabelReference instructionInfo l; pure none
  | Request.newLabelId => do let l ← newLabelId; pure (some l)
  | Request.namedLabel n a r e => do let l ← namedLabel n a r e; pure (some l)
  | Request.appendLinkerSymbol n => do appendLinkerSymbol n; pure none
  | Request.appendJump d t => do appendJump instructionInfo d t; pure none
  | Request.appendJumpTo l d t => do appendJumpTo instructionInfo l d t; pure none
  | Request.appendJumpToIf l t => do appendJumpToIf instructionInfo l t; pure none
  | Request.appendAssemblySize => do appendAssemblySize instructionInfo; pure none
  | Request.createSubAssembly n => do let p ← createSubAssembly n; pure (some p.2)
  | Request.appendDataOffset p => do appendDataOffset instructionInfo p; pure none
  | Request.appendDataSize p => do appendDataSize instructionInfo p; pure none
  | Request.appendData d => do let i ← appendData d; pure (some i)
  | Request.appendImmutable n => do appendImmutable n; pure none
  | Request.appendImmutableAssignment n => do appendImmutableAssignment n; pure none

end NoOutputAssembly

/-- The four member functions that the spec lists as unsupported capabilities. -/
def Request.unsupported : Request → Bool
  | Request.appendLinkerSymbol _ => true
  | Request.createSubAssembly _ => true
  | Request.appendImmutable _ => true
  | Request.appendImmutableAssignment _ => true
  | _ => false

/-- Whether a call threw. -/
def Effect.failed {σ α : Type} (r : Except String α × σ) : Bool :=
  match r.1 with
  | Except.ok _ => false
  | Except.error _ => true

/-- The net stack effect `ret - args` of an arity-table entry, as an exact integer. -/
def InstructionInfo.net (i : InstructionInfo) : Int := i.ret - i.args

/-! ## NoOutputEVMDialect -/

/-- The part of `yul::FunctionCall` that the code generator reads: the ordered
argument expressions. `Expression` is the type of Yul expressions, which the
generator only hands on to the visitor. -/
structure FunctionCall (Expression : Type) where
  arguments : List Expression

/-- The two virtual member functions of `AbstractAssembly` that the patched
code generator calls on `_assembly`, for an implementation with state `σ`. -/
structure AbstractAssembly (σ : Type) where
  appendInstruction : Instruction → Effect σ Unit
  appendConstant : U256 → Effect σ Unit

/-- Modelled from the spec: `BuiltinFunctionForEVM` of libyul/backends/evm/EVMDialect.h
(with `BuiltinFunction` of libyul/Dialect.h) is not among the sources. Kept are
the declared return values, the flag per argument position saying whether that
argument is a compile-time literal (`literalArgument(i)`), and the replaceable
code-generation callback; its `BuiltinContext&` parameter, which the patched
callback ignores, is left out. -/
structure BuiltinFunctionForEVM (σ Expression : Type) where
  returns : List String
  literalArgument : Nat → Bool
  generateCode :
    FunctionCall Expression → AbstractAssembly σ → (Expression → Effect σ Unit) → Effect σ Unit

/-- The body of the first loop of the lambda below, for one value of `j`, with
the counter `visited` passed in and out. `_call.arguments[i]` is read at
`i = size - j - 1`, which is below `size` for every `j` the loop reaches; the
`none` alternative of the lookup is never taken. -/
def NoOutputEVMDialect.visitArgument {σ Expression : Type}
    (fn : BuiltinFunctionForEVM σ Expression) (_call : FunctionCall Expression)
    (_visitExpression : Expression → Effect σ Unit) (visited : Nat) (j : Nat) :
    Effect σ Nat := do
  let i := _call.arguments.length - j - 1
  if !fn.literalArgument i then
    match _call.arguments[i]? with
    | some argument =>
        _visitExpression argument
        pure (visited + 1)
    | none => pure visited
  else
    pure visited

/-- The lambda assigned to `fun.second.generateCode` in the constructor
`NoOutputEVMDialect::NoOutputEVMDialect`. It captures the table entry `fun` and
`returns = fun.second.returns.size()` by copy. The three `for` loops run over
`j = 0 .. size - 1`, `i = 0 .. visited - 1` and `i = 0 .. returns - 1`. -/
def NoOutputEVMDialect.generateCode {σ Expression : Type}
    (fn : BuiltinFunctionForEVM σ Expression)
    (_call : FunctionCall Expression) (_assembly : AbstractAssembly σ)
    (_visitExpression : Expression → Effect σ Unit) : Effect σ Unit := do
  let returns := fn.returns.length
  let visited ← (List.range _call.arguments.length).foldlM
    (NoOutputEVMDialect.visitArgument fn _call _visitExpression) 0
  (List.range visited).forM fun _ => _assembly.appendInstruction Instruction.POP
  (List.range returns).forM fun _ => _assembly.appendConstant 0

/-- The constructor `NoOutputEVMDialect::NoOutputEVMDialect`: the function table
`m_functions` that the base-class constructor has built (a map from names to
entries, here an association list) has the callback of every entry replaced. -/
def NoOutputEVMDialect {σ Expression : Type}
    (m_functions : List (String × BuiltinFunctionForEVM σ Expression)) :
    List (String × BuiltinFunctionForEVM σ Expression) :=
  m_functions.map fun fn =>
    (fn.1, { fn.2 with generateCode := NoOutputEVMDialect.generateCode fn.2 })

/-- The object `NoOutputAssembly` seen through the interface `AbstractAssembly&`. -/
def NoOutputAssembly.asAbstractAssembly (instructionInfo : Instruction → InstructionInfo) :
    AbstractAssembly NoOutputAssembly where
  appendInstruction := NoOutputAssembly.appendInstruction instructionInfo
  appendConstant := NoOutputAssembly.appendConstant instructionInfo

/-! ## Observing the calls a code generator makes -/

/-- A call made by a code-generation callback: on the argument visitor or on
one of the two member functions of the assembly. -/
inductive Event (Expression : Type) where
  | visitExpression (argument : Expression)
  | appendInstruction (_instr : Instruction)
  | appendConstant (value : U256)
  deriving DecidableEq, Repr

/-- An assembly that only records, in order, the calls made on it. -/
def recordingAssembly (Expression : Type) : AbstractAssembly (List (Event Expression)) where
  appendInstruction := fun i => Effect.update fun log => log ++ [Event.appendInstruction i]
  appendConstant := fun v => Effect.update fun log => log ++ [Event.appendConstant v]

/-- A visitor that only records, in the same log, the expression it is given. -/
def recordingVisitor (Expression : Type) :
    Expression → Effect (List (Event Expression)) Unit :=
  fun e => Effect.update fun log => log ++ [Event.visitExpression e]

/-- The arguments of a call that stand at non-literal positions, each with its
index, first argument to last. -/
def nonLiteralArguments {Expression : Type} (literalArgument : Nat → Bool)
    (arguments : List Expression) : List (Nat × Expression) :=
  arguments.enum.filter fun p => !literalArgument p.1

/-- The event sequence the spec states for a call with the given literal
positions, arguments and number `r` of declared returns: the non-literal
arguments visited last to first, as many POPs, then `r` pushes of zero. -/
def expectedEvents {Expression : Type} (literalArgument : Nat → Bool)
    (arguments : List Expression) (r : Nat) : List (Event Expression) :=
  ((nonLiteralArguments literalArgument arguments).reverse.map
      fun p => Event.visitExpression p.2)
    ++ List.replicate (nonLiteralArguments literalArgument arguments).length
        (Event.appendInstruction Instruction.POP)
    ++ List.replicate r (Event.appendConstant 0)

/-- The table entry of the spec's worked example: three arguments of which the
one at index 1 is literal, and two declared returns. -/
def exampleFunction (σ : Type) : BuiltinFunctionForEVM σ String where
  returns := ["r0", "r1"]
  literalArgument := fun i => i == 1
  generateCode := fun _ _ _ => pure ()

/-- A call of `exampleFunction` with three arguments. -/
def exampleCall : FunctionCall String where
  arguments := ["arg 0", "arg 1", "arg 2"]

/-! ## Arithmetic of `int` -/

/-- Shared: a value of `int` is stored as it is. -/
theorem wrapInt_of_inIntRange (x : Int) (h : inIntRange x) : wrapInt x = x := by
  unfold inIntRange INT_MIN INT_MAX at h
  unfold wrapInt
  omega

/-- Shared: what is stored is a value of `int`. -/
theorem inIntRange_wrapInt (x : Int) : inIntRange (wrapInt x) := by
  unfold inIntRange INT_MIN INT_MAX wrapInt
  omega

/-- Shared: wrapping the right summand first does not change the wrapped sum. -/
theorem wrapInt_add_wrapInt (x y : Int) : wrapInt (x + wrapInt y) = wrapInt (x + y) := by
  unfold wrapInt
  omega

/-- Shared: wrapping the left summand first does not change the wrapped sum. -/
theorem wrapInt_wrapInt_add (x y : Int) : wrapInt (wrapInt x + y) = wrapInt (x + y) := by
  unfold wrapInt
  omega

/-- Shared: `appendInstruction` returns and stores the wrapped sum of the height
and the net effect of the instruction. -/
theorem appendInstruction_wrapped (instructionInfo : Instruction → InstructionInfo)
    (I : Instruction) (s : NoOutputAssembly) :
    NoOutputAssembly.appendInstruction instructionInfo I s
      = (Except.ok (),
          { m_stackHeight := wrapInt (s.m_stackHeight + (instructionInfo I).net) }) := by
  show (Except.ok (), ({ m_stackHeight := wrapInt (s.m_stackHeight
      + wrapInt ((instructionInfo I).ret - (instructionInfo I).args)) } : NoOutputAssembly)) = _
  rw [wrapInt_add_wrapInt]
  rfl

/-- Shared: `appendJump` returns and stores the wrapped sum of the height, the
net effect of JUMP and the stack difference. -/
theorem appendJump_wrapped (instructionInfo : Instruction → InstructionInfo)
    (d : Int) (t : JumpType) (s : NoOutputAssembly) :
    NoOutputAssembly.appendJump instructionInfo d t s
      = (Except.ok (),
          { m_stackHeight :=
              wrapInt (s.m_stackHeight + (instructionInfo Instruction.JUMP).net + d) }) := by
  show (Except.ok (), ({ m_stackHeight := wrapInt (wrapInt (s.m_stackHeight
      + wrapInt ((instructionInfo Instruction.JUMP).ret
          - (instructionInfo Instruction.JUMP).args)) + d) } : NoOutputAssembly)) = _
  congr 2
  unfold wrapInt InstructionInfo.net
  omega

/-! ## Single member functions -/

/-- C1 (as stated, refuted): from the height `INT_MAX`, `appendInstruction(PUSH1)`
with the entry `(args = 0, ret = 1)` leaves the height `INT_MIN`, not
`INT_MAX + (1 - 0)`. -/
theorem appendInstruction_stackHeight_counterexample :
    (specInstructionInfo Instruction.PUSH1).args = 0
      ∧ (specInstructionInfo Instruction.PUSH1).ret = 1
      ∧ inIntRange 2147483647
      ∧ NoOutputAssembly.appendInstruction specInstructionInfo Instruction.PUSH1 ⟨2147483647⟩
          = (Except.ok (), { m_stackHeight := -2147483648 })
      ∧ (NoOutputAssembly.appendInstruction specInstructionInfo Instruction.PUSH1
          ⟨2147483647⟩).2.m_stackHeight ≠ 2147483647 + (1 - 0) :=
  ⟨rfl, rfl, by decide, rfl, by decide⟩

/-- C1 (amended): for an instruction whose arity-table entry is `(args = a, ret = r)`
and a height `h` for which `h + (r - a)` is a value of `int`,
`appendInstruction` returns normally and leaves `m_stackHeight` equal to
`h + (r - a)` and nothing else, so that the change is `r - a` whatever `h` is. -/
theorem appendInstruction_stackHeight (instructionInfo : Instruction → InstructionInfo)
    (I : Instruction) (a r : Int)
    (ha : (instructionInfo I).args = a) (hr : (instructionInfo I).ret = r)
    (s : NoOutputAssembly) (hrange : inIntRange (s.m_stackHeight + (r - a))) :
    NoOutputAssembly.appendInstruction instructionInfo I s
        = (Except.ok (), { m_stackHeight := s.m_stackHeight + (r - a) })
      ∧ (NoOutputAssembly.appendInstruction instructionInfo I s).2.m_stackHeight
          - s.m_stackHeight = r - a := by
  subst ha hr
  have h := appendInstruction_wrapped instructionInfo I s
  rw [InstructionInfo.net, wrapInt_of_inIntRange _ hrange] at h
  refine ⟨h, ?_⟩
  rw [h]
  show s.m_stackHeight + _ - s.m_stackHeight = _
  ring

/-- C1 (amended) at ADD with arity `(2,1)` from height 5. -/
theorem appendInstruction_stackHeight_witness :
    (specInstructionInfo Instruction.ADD).args = 2
      ∧ (specInstructionInfo Instruction.ADD).ret = 1
      ∧ inIntRange (5 + (1 - 2))
      ∧ NoOutputAssembly.appendInstruction specInstructionInfo Instruction.ADD ⟨5⟩
        = (Except.ok (), { m_stackHeight := 5 + (1 - 2) }) :=
  ⟨rfl, rfl, by decide,
    (appendInstruction_stackHeight specInstructionInfo Instruction.ADD 2 1 rfl rfl ⟨5⟩
      (by decide)).1⟩

/-- C6 (as stated, refuted): from height 2, `appendJumpTo(id, INT_MAX, ordinary)`
with a label reference of net effect `+1` and JUMP of arity `(1,0)` leaves the
height `INT_MIN + 1`, not `2 + INT_MAX`. -/
theorem appendJumpTo_counterexample :
    (specInstructionInfo Instruction.PUSH1).net = 1
      ∧ specInstructionInfo Instruction.JUMP = { args := 1, ret := 0 }
      ∧ inIntRange 2 ∧ inIntRange 2147483647
      ∧ NoOutputAssembly.appendJumpTo specInstructionInfo 7 2147483647 JumpType.Ordinary ⟨2⟩
          = (Except.ok (), { m_stackHeight := -2147483647 })
      ∧ (NoOutputAssembly.appendJumpTo specInstructionInfo 7 2147483647 JumpType.Ordinary
          ⟨2⟩).2.m_stackHeight ≠ 2 + 2147483647 :=
  ⟨rfl, rfl, by decide, by decide, rfl, by decide⟩

/-- C6 (amended): `appendJumpTo(id, d, t)` yields what `appendLabelReference(id)`
followed by `appendJump(d, t)` yields; when a label reference has net effect
`+1`, JUMP has arity `(1,0)` and `h + d` is a value of `int`, it returns
normally and the height changes by exactly `d`. -/
theorem appendJumpTo_eq_labelReference_then_jump
    (instructionInfo : Instruction → InstructionInfo)
    (id : LabelID) (d : Int) (t : JumpType) (s : NoOutputAssembly) :
    NoOutputAssembly.appendJumpTo instructionInfo id d t s
        = NoOutputAssembly.appendJump instructionInfo d t
            (NoOutputAssembly.appendLabelReference instructionInfo id s).2
      ∧ (NoOutputAssembly.appendLabelReference instructionInfo id s).1 = Except.ok ()
      ∧ ((instructionInfo Instruction.PUSH1).net = 1 →
          instructionInfo Instruction.JUMP = { args := 1, ret := 0 } →
          inIntRange (s.m_stackHeight + d) →
          NoOutputAssembly.appendJumpTo instructionInfo id d t s
            = (Except.ok (), { m_stackHeight := s.m_stackHeight + d })) := by
  refine ⟨rfl, rfl, fun hpush hjump hrange => ?_⟩
  have hjump' : (instructionInfo Instruction.JUMP).net = -1 := by
    rw [InstructionInfo.net, hjump]
    rfl
  have h : NoOutputAssembly.appendJumpTo instructionInfo id d t s
      = NoOutputAssembly.appendJump instructionInfo d t
          (NoOutputAssembly.appendInstruction instructionInfo Instruction.PUSH1 s).2 := rfl
  rw [h, appendInstruction_wrapped, appendJump_wrapped, hpush, hjump']
  show (Except.ok (), NoOutputAssembly.mk (wrapInt (wrapInt (s.m_stackHeight + 1) + -1 + d)))
    = _
  congr 2
  unfold inIntRange INT_MIN INT_MAX at hrange
  unfold wrapInt
  omega

/-- C6 (amended) at `appendJumpTo(id, -1, ordinary)` from height 4: the height ends
at 3. -/
theorem appendJumpTo_eq_labelReference_then_jump_witness :
    (specInstructionInfo Instruction.PUSH1).net = 1
      ∧ specInstructionInfo Instruction.JUMP = { args := 1, ret := 0 }
      ∧ inIntRange (4 + (-1))
      ∧ NoOutputAssembly.appendJumpTo specInstructionInfo 7 (-1) JumpType.Ordinary ⟨4⟩
          = (Except.ok (), { m_stackHeight := 4 + (-1) }) :=
  ⟨rfl, rfl, by decide,
    (appendJumpTo_eq_labelReference_then_jump specInstructionInfo 7 (-1) JumpType.Ordinary
      ⟨4⟩).2.2 rfl rfl (by decide)⟩

/-- C7 (as stated, refuted): from the height `INT_MIN`, `appendJumpToIf` with a
label reference of net effect `+1` and JUMPI of arity `(2,0)` leaves the height
`INT_MAX`, not `INT_MIN - 1`. -/
theorem appendJumpToIf_stackHeight_counterexample :
    (specInstructionInfo Instruction.PUSH1).net = 1
      ∧ specInstructionInfo Instruction.JUMPI = { args := 2, ret := 0 }
      ∧ inIntRange (-2147483648)
      ∧ NoOutputAssembly.appendJumpToIf specInstructionInfo 7 JumpType.Ordinary ⟨-2147483648⟩
          = (Except.ok (), { m_stackHeight := 2147483647 })
      ∧ (NoOutputAssembly.appendJumpToIf specInstructionInfo 7 JumpType.Ordinary
          ⟨-2147483648⟩).2.m_stackHeight ≠ -2147483648 - 1 :=
  ⟨rfl, rfl, by decide, rfl, by decide⟩

/-- C7 (amended): `appendJumpToIf(id, t)` yields what `appendLabelReference(id)`
followed by the instruction JUMPI yields, whatever `id` and `t` are; when a
label reference has net effect `+1` and `h + 1 + (net effect of JUMPI)` is a
value of `int`, the height becomes that sum, which with JUMPI of arity `(2,0)`
is `h - 1`. -/
theorem appendJumpToIf_stackHeight (instructionInfo : Instruction → InstructionInfo)
    (id : LabelID) (t : JumpType) (s : NoOutputAssembly) :
    NoOutputAssembly.appendJumpToIf instructionInfo id t s
        = NoOutputAssembly.appendInstruction instructionInfo Instruction.JUMPI
            (NoOutputAssembly.appendLabelReference instructionInfo id s).2
      ∧ (NoOutputAssembly.appendLabelReference instructionInfo id s).1 = Except.ok ()
      ∧ (∀ (id' : LabelID) (t' : JumpType),
          NoOutputAssembly.appendJumpToIf instructionInfo id' t' s
            = NoOutputAssembly.appendJumpToIf instructionInfo id t s)
      ∧ ((instructionInfo Instruction.PUSH1).net = 1 →
          inIntRange (s.m_stackHeight + 1 + (instructionInfo Instruction.JUMPI).net) →
          NoOutputAssembly.appendJumpToIf instructionInfo id t s
              = (Except.ok (),
                  { m_stackHeight :=
                      s.m_stackHeight + 1 + (instructionInfo Instruction.JUMPI).net })
            ∧ (instructionInfo Instruction.JUMPI = { args := 2, ret := 0 } →
                NoOutputAssembly.appendJumpToIf instructionInfo id t s
                  = (Except.ok (), { m_stackHeight := s.m_stackHeight - 1 }))) := by
  refine ⟨rfl, rfl, fun _ _ => rfl, fun hpush hrange => ?_⟩
  have h : NoOutputAssembly.appendJumpToIf instructionInfo id t s
      = NoOutputAssembly.appendInstruction instructionInfo Instruction.JUMPI
          (NoOutputAssembly.appendInstruction instructionInfo Instruction.PUSH1 s).2 := rfl
  have key : NoOutputAssembly.appendJumpToIf instructionInfo id t s
      = (Except.ok (),
          { m_stackHeight := s.m_stackHeight + 1 + (instructionInfo Instruction.JUMPI).net }) := by
    rw [h, appendInstruction_wrapped, appendInstruction_wrapped, hpush, wrapInt_wrapInt_add,
      wrapInt_of_inIntRange _ hrange]
  refine ⟨key, fun hjumpi => ?_⟩
  rw [key, InstructionInfo.net, hjumpi]
  congr 2
  ring

/-- C7 (amended) from height 4 with JUMPI of arity `(2,0)`: the height ends at 3. -/
theorem appendJumpToIf_stackHeight_witness :
    (specInstructionInfo Instruction.PUSH1).net = 1
      ∧ inIntRange (4 + 1 + (specInstructionInfo Instruction.JUMPI).net)
      ∧ specInstructionInfo Instruction.JUMPI = { args := 2, ret := 0 }
      ∧ NoOutputAssembly.appendJumpToIf specInstructionInfo 7 JumpType.Ordinary ⟨4⟩
          = (Except.ok (), { m_stackHeight := 4 - 1 }) :=
  ⟨rfl, by decide, rfl,
    ((appendJumpToIf_stackHeight specInstructionInfo 7 JumpType.Ordinary ⟨4⟩).2.2.2 rfl
      (by decide)).2 rfl⟩

/-- C8 (as stated, refuted): from the height `INT_MAX`, `appendConstant(0)` with
PUSH1 of net effect `+1` leaves the height `INT_MIN`, not `INT_MAX + 1`. -/
theorem pseudoInstruction_stackHeight_counterexample :
    (specInstructionInfo Instruction.PUSH1).net = 1
      ∧ inIntRange 2147483647
      ∧ NoOutputAssembly.appendConstant specInstructionInfo 0 ⟨2147483647⟩
          = (Except.ok (), { m_stackHeight := -2147483648 })
      ∧ (NoOutputAssembly.appendConstant specInstructionInfo 0
          ⟨2147483647⟩).2.m_stackHeight ≠ 2147483647 + 1 :=
  ⟨rfl, by decide, rfl, by decide⟩

/-- C8 (amended): when the push instruction PUSH1 has net effect `+1` and the label
marker JUMPDEST has net effect `0` in the arity table, then from every height
`h` of type `int`, `appendLabel` returns normally and leaves the height
unchanged for every id, and, when `h + 1` is a value of `int` too (`h` is not
`INT_MAX`), `appendConstant`, `appendLabelReference`, `appendAssemblySize`,
`appendDataOffset` and `appendDataSize` return normally and raise the height
by exactly 1, for every argument (every value, id and list of ids, the empty
list included). -/
theorem pseudoInstruction_stackHeight (instructionInfo : Instruction → InstructionInfo)
    (hpush : (instructionInfo Instruction.PUSH1).net = 1)
    (hdest : (instructionInfo Instruction.JUMPDEST).net = 0) (s : NoOutputAssembly)
    (hs : inIntRange s.m_stackHeight) :
    (inIntRange (s.m_stackHeight + 1) →
        (∀ v : U256, NoOutputAssembly.appendConstant instructionInfo v s
            = (Except.ok (), { m_stackHeight := s.m_stackHeight + 1 }))
          ∧ (∀ id : LabelID, NoOutputAssembly.appendLabelReference instructionInfo id s
            = (Except.ok (), { m_stackHeight := s.m_stackHeight + 1 }))
          ∧ NoOutputAssembly.appendAssemblySize instructionInfo s
            = (Except.ok (), { m_stackHeight := s.m_stackHeight + 1 })
          ∧ (∀ ids : List SubID, NoOutputAssembly.appendDataOffset instructionInfo ids s
            = (Except.ok (), { m_stackHeight := s.m_stackHeight + 1 }))
          ∧ (∀ ids : List SubID, NoOutputAssembly.appendDataSize instructionInfo ids s
            = (Except.ok (), { m_stackHeight := s.m_stackHeight + 1 })))
      ∧ (∀ id : LabelID, NoOutputAssembly.appendLabel instructionInfo id s
        = (Except.ok (), { m_stackHeight := s.m_stackHeight + 0 })) := by
  constructor
  · intro hnext
    have push : NoOutputAssembly.appendInstruction instructionInfo Instruction.PUSH1 s
        = (Except.ok (), { m_stackHeight := s.m_stackHeight + 1 }) := by
      rw [appendInstruction_wrapped, hpush, wrapInt_of_inIntRange _ hnext]
    exact ⟨fun _ => push, fun _ => push, push, fun _ => push, fun _ => push⟩
  · intro _
    show NoOutputAssembly.appendInstruction instructionInfo Instruction.JUMPDEST s = _
    rw [appendInstruction_wrapped, hdest, wrapInt_of_inIntRange _ (by simpa using hs)]

/-- C8 (amended) from height 3: a constant, the data offset of the empty list and
the data size of a three-element list each give height 4, a label gives
height 3. -/
theorem pseudoInstruction_stackHeight_witness :
    inIntRange 3 ∧ inIntRange (3 + 1)
      ∧ NoOutputAssembly.appendConstant specInstructionInfo 5 ⟨3⟩ = (Except.ok (), ⟨3 + 1⟩)
      ∧ NoOutputAssembly.appendDataOffset specInstructionInfo [] ⟨3⟩ = (Except.ok (), ⟨3 + 1⟩)
      ∧ NoOutputAssembly.appendDataSize specInstructionInfo [1, 1, 1] ⟨3⟩
          = (Except.ok (), ⟨3 + 1⟩)
      ∧ NoOutputAssembly.appendLabel specInstructionInfo 9 ⟨3⟩ = (Except.ok (), ⟨3 + 0⟩) :=
  have h := pseudoInstruction_stackHeight specInstructionInfo rfl rfl ⟨3⟩ (by decide)
  have hp := h.1 (by decide)
  ⟨by decide, by decide, hp.1 5, hp.2.2.2.1 [], hp.2.2.2.2 [1, 1, 1], h.2 9⟩

/-- C9: `newLabelId()`, `namedLabel(name, numArgs, numRets, existingId)` and
`appendData(bytes)` return the sentinel 1 from every state and for every
argument, and leave the object, hence `m_stackHeight`, unchanged. -/
theorem sentinel_handles (s : NoOutputAssembly) :
    NoOutputAssembly.newLabelId s = (Except.ok 1, s)
      ∧ (∀ (name : String) (numArgs numRets : Nat) (existingId : Option Nat),
          NoOutputAssembly.namedLabel name numArgs numRets existingId s = (Except.ok 1, s))
      ∧ (∀ data : Bytes, NoOutputAssembly.appendData data s = (Except.ok 1, s)) :=
  ⟨rfl, fun _ _ _ _ => rfl, fun _ => rfl⟩

/-- Shared: a request throws exactly when it is one of the four unsupported ones. -/
theorem perform_failed_eq_unsupported (instructionInfo : Instruction → InstructionInfo)
    (r : Request) (s : NoOutputAssembly) :
    Effect.failed (NoOutputAssembly.perform instructionInfo r s) = r.unsupported := by
  cases r <;> rfl

/-- C4: a request throws if and only if it is a call of `appendLinkerSymbol`,
`createSubAssembly`, `appendImmutable` or `appendImmutableAssignment`; these
four throw for every argument and from every state, with the object (hence
`m_stackHeight`) as it was before the call; every other request returns. -/
theorem perform_failed_iff (instructionInfo : Instruction → InstructionInfo)
    (r : Request) (s : NoOutputAssembly) :
    (Effect.failed (NoOutputAssembly.perform instructionInfo r s) = true ↔
        ((∃ name, r = Request.appendLinkerSymbol name)
          ∨ (∃ name, r = Request.createSubAssembly name)
          ∨ (∃ name, r = Request.appendImmutable name)
          ∨ (∃ name, r = Request.appendImmutableAssignment name)))
      ∧ (Effect.failed (NoOutputAssembly.perform instructionInfo r s) = true →
          (NoOutputAssembly.perform instructionInfo r s).2 = s)
      ∧ (∀ name, NoOutputAssembly.appendLinkerSymbol name s
          = (Except.error "Linker symbols not yet implemented.", s))
      ∧ (∀ name, NoOutputAssembly.createSubAssembly name s
          = (Except.error "Sub assemblies not implemented.", s))
      ∧ (∀ name, NoOutputAssembly.appendImmutable name s
          = (Except.error "loadimmutable not implemented.", s))
      ∧ (∀ name, NoOutputAssembly.appendImmutableAssignment name s
          = (Except.error "setimmutable not implemented.", s)) := by
  refine ⟨?_, ?_, fun _ => rfl, fun _ => rfl, fun _ => rfl, fun _ => rfl⟩
  · rw [perform_failed_eq_unsupported]
    cases r <;> simp [Request.unsupported]
  · rw [perform_failed_eq_unsupported]
    cases r <;> first
      | (intro _; rfl)
      | (intro h; simp [Request.unsupported] at h)

/-- C4 at `appendLinkerSymbol("lib")` from height 3: the call throws and the
height is still 3. -/
theorem perform_failed_iff_witness :
    Effect.failed
        (NoOutputAssembly.perform specInstructionInfo (Request.appendLinkerSymbol "lib") ⟨3⟩)
        = true
      ∧ (NoOutputAssembly.perform specInstructionInfo (Request.appendLinkerSymbol "lib")
          ⟨3⟩).2 = ⟨3⟩ :=
  ⟨rfl,
    (perform_failed_iff specInstructionInfo (Request.appendLinkerSymbol "lib") ⟨3⟩).2.1 rfl⟩

/-- Shared: a statement that returns hands its value and state to the next. -/
theorem Effect.bind_ok {σ α β : Type} (x : Effect σ α) (f : α → Effect σ β) (s s' : σ) (a : α)
    (h : x s = (Except.ok a, s')) : (x >>= f) s = f a s' := by
  show Effect.andThen x f s = _
  unfold Effect.andThen
  rw [h]

/-- Shared: the arguments at the positions `0 .. size - 1` that pass a test on the
position are the entries of the enumerated list that pass it. -/
theorem filterMap_getElem?_range' {α : Type} (p : Nat → Bool) (l : List α) (start : Nat) :
    ((List.range' start l.length).filter p).filterMap (fun i => l[i - start]?)
      = ((l.enumFrom start).filter fun q => p q.1).map Prod.snd := by
  induction l generalizing start with
  | nil => simp
  | cons a l ih =>
      have tail : ((List.range' (start + 1) l.length).filter p).filterMap
            (fun i => (a :: l)[i - start]?)
          = ((List.range' (start + 1) l.length).filter p).filterMap
            (fun i => l[i - (start + 1)]?) := by
        apply List.filterMap_congr
        intro i hi
        have hi' : start + 1 ≤ i := by
          have := (List.mem_range'_1.mp (List.mem_filter.mp hi).1).1
          exact this
        have : i - start = (i - (start + 1)) + 1 := by omega
        rw [this, List.getElem?_cons_succ]
      simp only [List.length_cons, List.range'_succ, List.enumFrom_cons, List.filter_cons]
      by_cases hp : p start = true
      · simp only [hp, if_true, List.filterMap_cons, Nat.sub_self, List.getElem?_cons_zero,
          List.map_cons, tail, ih (start + 1)]
      · simp only [hp, Bool.false_eq_true, if_false]
        rw [tail, ih (start + 1)]

/-- Shared: the first loop, run over any list of values of `j` against the
recording visitor, visits the arguments at the non-literal positions
`size - j - 1` in the order of the list and counts them. -/
theorem visitArgument_foldlM_recorded {Expression : Type}
    (fn : BuiltinFunctionForEVM (List (Event Expression)) Expression)
    (call : FunctionCall Expression)
    (js : List Nat) (visited : Nat) (log : List (Event Expression)) :
    js.foldlM (NoOutputEVMDialect.visitArgument fn call (recordingVisitor Expression))
        visited log
      = (Except.ok (visited
            + (((js.map fun j => call.arguments.length - j - 1).filter
                fun i => !fn.literalArgument i).filterMap fun i => call.arguments[i]?).length),
          log ++ (((js.map fun j => call.arguments.length - j - 1).filter
                fun i => !fn.literalArgument i).filterMap
                  fun i => call.arguments[i]?).map Event.visitExpression) := by
  induction js generalizing visited log with
  | nil => simp [pure, Effect.ret]
  | cons j js ih =>
      rw [List.foldlM_cons]
      by_cases hlit : fn.literalArgument (call.arguments.length - j - 1) = true
      · rw [Effect.bind_ok _ _ log log visited
          (by simp [NoOutputEVMDialect.visitArgument, hlit, pure, Effect.ret]), ih]
        simp [hlit]
      · cases harg : call.arguments[call.arguments.length - j - 1]? with
        | none =>
            rw [Effect.bind_ok _ _ log log visited
              (by simp [NoOutputEVMDialect.visitArgument, hlit, harg, pure, Effect.ret]), ih]
            simp [hlit, harg]
        | some a =>
            rw [Effect.bind_ok _ _ log (log ++ [Event.visitExpression a]) (visited + 1)
              (by
                simp only [NoOutputEVMDialect.visitArgument, hlit, harg]
                rfl), ih]
            simp [hlit, harg]
            omega

/-- Shared: a loop whose body records one fixed event records it once per pass. -/
theorem forM_recorded {α Expression : Type} (l : List α) (ev : Event Expression)
    (log : List (Event Expression)) :
    l.forM (fun _ => (Effect.update fun log' => log' ++ [ev] :
        Effect (List (Event Expression)) Unit)) log
      = (Except.ok (), log ++ List.replicate l.length ev) := by
  induction l generalizing log with
  | nil => simp [pure, Effect.ret]
  | cons a l ih =>
      rw [List.forM_cons', Effect.bind_ok _ _ log (log ++ [ev]) () rfl, ih]
      simp [List.replicate_succ]

/-- Shared: the positions `size - j - 1` for `j = 0 .. size - 1` are the positions
`size - 1` down to `0`. -/
theorem map_sub_range (n : Nat) :
    ((List.range n).map fun j => n - j - 1) = (List.range n).reverse := by
  rw [List.range_eq_range', List.reverse_range', ← List.range_eq_range']
  apply List.map_congr_left
  intro j hj
  have := List.mem_range.mp hj
  omega

/-- Shared: the patched callback of a table entry, run against the recording
assembly and visitor, appends exactly the expected events to the log. -/
theorem generateCode_recorded {Expression : Type}
    (fn : BuiltinFunctionForEVM (List (Event Expression)) Expression)
    (call : FunctionCall Expression) (log : List (Event Expression)) :
    NoOutputEVMDialect.generateCode fn call (recordingAssembly Expression)
        (recordingVisitor Expression) log
      = (Except.ok (),
          log ++ expectedEvents fn.literalArgument call.arguments fn.returns.length) := by
  have hvisits : (((List.range call.arguments.length).map
        fun j => call.arguments.length - j - 1).filter
          fun i => !fn.literalArgument i).filterMap (fun i => call.arguments[i]?)
      = ((nonLiteralArguments fn.literalArgument call.arguments).map Prod.snd).reverse := by
    have h := filterMap_getElem?_range' (fun i => !fn.literalArgument i) call.arguments 0
    simp only [Nat.sub_zero, ← List.range_eq_range'] at h
    rw [map_sub_range, List.filter_reverse, List.filterMap_reverse, h]
    rfl
  unfold NoOutputEVMDialect.generateCode
  rw [Effect.bind_ok _ _ log _ _ (visitArgument_foldlM_recorded fn call _ 0 log), hvisits]
  simp only [recordingAssembly]
  rw [Effect.bind_ok _ _ _ _ ()
    (forM_recorded _ (Event.appendInstruction Instruction.POP) _)]
  rw [forM_recorded (List.range fn.returns.length) (Event.appendConstant 0 : Event Expression)]
  simp [expectedEvents, List.map_reverse, List.append_assoc]

/-- Shared: `nonLiteralArguments` holds exactly the pairs of a non-literal
position and the argument there, by increasing position. -/
theorem nonLiteralArguments_spec {Expression : Type} (literalArgument : Nat → Bool)
    (arguments : List Expression) :
    (∀ (i : Nat) (e : Expression),
        (i, e) ∈ nonLiteralArguments literalArgument arguments
          ↔ arguments[i]? = some e ∧ literalArgument i = false)
      ∧ ((nonLiteralArguments literalArgument arguments).reverse.map Prod.fst).Pairwise
          (fun a b => a > b) := by
  constructor
  · intro i e
    simp [nonLiteralArguments, List.mem_filter, List.mk_mem_enum_iff_getElem?]
  · rw [List.map_reverse, List.pairwise_reverse]
    have hsub : ((nonLiteralArguments literalArgument arguments).map Prod.fst).Sublist
        (List.range arguments.length) := by
      rw [← List.enum_map_fst]
      exact (List.filter_sublist _).map Prod.fst
    exact (List.pairwise_lt_range _).sublist hsub

/-- C2: for every entry of the table patched by `NoOutputEVMDialect` and every
call, the patched `generateCode` returns normally and makes exactly these
calls, in this order: the visitor on each argument at a non-literal position,
by strictly decreasing position (literal positions are never visited), then one
`appendInstruction(POP)` per visit, then one `appendConstant(0)` per declared
return. -/
theorem patched_generateCode_events {Expression : Type}
    (m_functions : List (String × BuiltinFunctionForEVM (List (Event Expression)) Expression))
    (fn : String × BuiltinFunctionForEVM (List (Event Expression)) Expression)
    (hfn : fn ∈ NoOutputEVMDialect m_functions)
    (call : FunctionCall Expression) (log : List (Event Expression)) :
    fn.2.generateCode call (recordingAssembly Expression) (recordingVisitor Expression) log
        = (Except.ok (),
            log
              ++ ((nonLiteralArguments fn.2.literalArgument call.arguments).reverse.map
                    fun p => Event.visitExpression p.2)
              ++ List.replicate (nonLiteralArguments fn.2.literalArgument call.arguments).length
                    (Event.appendInstruction Instruction.POP)
              ++ List.replicate fn.2.returns.length (Event.appendConstant 0))
      ∧ (∀ (i : Nat) (e : Expression),
          (i, e) ∈ nonLiteralArguments fn.2.literalArgument call.arguments
            ↔ call.arguments[i]? = some e ∧ fn.2.literalArgument i = false)
      ∧ ((nonLiteralArguments fn.2.literalArgument call.arguments).reverse.map
          Prod.fst).Pairwise (fun a b => a > b) := by
  obtain ⟨orig, _, rfl⟩ := List.mem_map.mp hfn
  refine ⟨?_, nonLiteralArguments_spec _ _⟩
  have h := generateCode_recorded orig.2 call log
  simp only [expectedEvents, ← List.append_assoc] at h
  exact h

/-- C2 at the entry with three arguments of which index 1 is literal and two
returns: visit(arg 2), visit(arg 0), POP, POP, push 0, push 0. -/
theorem patched_generateCode_events_witness :
    (("f", { exampleFunction (List (Event String)) with
              generateCode := NoOutputEVMDialect.generateCode (exampleFunction _) }) :
          String × BuiltinFunctionForEVM (List (Event String)) String)
        ∈ NoOutputEVMDialect [("f", exampleFunction (List (Event String)))]
      ∧ NoOutputEVMDialect.generateCode (exampleFunction _) exampleCall
          (recordingAssembly String) (recordingVisitor String) []
        = (Except.ok (),
            [Event.visitExpression "arg 2", Event.visitExpression "arg 0",
              Event.appendInstruction Instruction.POP, Event.appendInstruction Instruction.POP,
              Event.appendConstant 0, Event.appendConstant 0]) :=
  ⟨List.mem_singleton.mpr rfl,
    (patched_generateCode_events [("f", exampleFunction (List (Event String)))]
      ("f", { exampleFunction (List (Event String)) with
                generateCode := NoOutputEVMDialect.generateCode (exampleFunction _) })
      (List.mem_singleton.mpr rfl) exampleCall []).1⟩

/-- Shared: the first loop, run over any list of values of `j` from a height of
type `int` with room for one more value per visit, against a visitor that
raises the height by 1, returns the count of visits and has raised the height
by that count. -/
theorem visitArgument_foldlM_stackHeight {Expression : Type}
    (fn : BuiltinFunctionForEVM NoOutputAssembly Expression) (call : FunctionCall Expression)
    (visit : Expression → Effect NoOutputAssembly Unit)
    (hvisit : ∀ p ∈ nonLiteralArguments fn.literalArgument call.arguments,
      ∀ s : NoOutputAssembly, inIntRange s.m_stackHeight → inIntRange (s.m_stackHeight + 1) →
        visit p.2 s = (Except.ok (), { m_stackHeight := s.m_stackHeight + 1 }))
    (js : List Nat) (visited : Nat) (s : NoOutputAssembly)
    (hs : inIntRange s.m_stackHeight)
    (hroom : inIntRange (s.m_stackHeight
      + ((((js.map fun j => call.arguments.length - j - 1).filter
          fun i => !fn.literalArgument i).filterMap fun i => call.arguments[i]?).length : Nat))) :
    js.foldlM (NoOutputEVMDialect.visitArgument fn call visit) visited s
      = (Except.ok (visited
            + (((js.map fun j => call.arguments.length - j - 1).filter
                fun i => !fn.literalArgument i).filterMap fun i => call.arguments[i]?).length),
          { m_stackHeight := s.m_stackHeight
            + ((((js.map fun j => call.arguments.length - j - 1).filter
                fun i => !fn.literalArgument i).filterMap
                  fun i => call.arguments[i]?).length : Nat) }) := by
  induction js generalizing visited s with
  | nil => simp [pure, Effect.ret]
  | cons j js ih =>
      rw [List.foldlM_cons]
      by_cases hlit : fn.literalArgument (call.arguments.length - j - 1) = true
      · simp only [List.map_cons, List.filter_cons, hlit, Bool.not_true, Bool.false_eq_true,
          if_false] at hroom ⊢
        rw [Effect.bind_ok _ _ s s visited
          (by simp [NoOutputEVMDialect.visitArgument, hlit, pure, Effect.ret])]
        exact ih visited s hs hroom
      · cases harg : call.arguments[call.arguments.length - j - 1]? with
        | none =>
            simp only [List.map_cons, List.filter_cons, hlit, Bool.not_false, if_true,
              List.filterMap_cons, harg] at hroom ⊢
            rw [Effect.bind_ok _ _ s s visited
              (by simp [NoOutputEVMDialect.visitArgument, hlit, harg, pure, Effect.ret])]
            exact ih visited s hs hroom
        | some a =>
            simp only [List.map_cons, List.filter_cons, hlit, Bool.not_false, if_true,
              List.filterMap_cons, harg, List.length_cons, Nat.cast_add, Nat.cast_one]
              at hroom ⊢
            have hmem : (call.arguments.length - j - 1, a)
                ∈ nonLiteralArguments fn.literalArgument call.arguments :=
              ((nonLiteralArguments_spec fn.literalArgument call.arguments).1 _ _).mpr
                ⟨harg, by simpa using hlit⟩
            have hnext : inIntRange (s.m_stackHeight + 1) := by
              unfold inIntRange INT_MIN INT_MAX at hs hroom ⊢
              omega
            rw [Effect.bind_ok _ _ s { m_stackHeight := s.m_stackHeight + 1 } (visited + 1)
              (by
                simp only [NoOutputEVMDialect.visitArgument, hlit, harg]
                exact Effect.bind_ok _ _ s _ () (hvisit _ hmem s hs hnext))]
            rw [ih (visited + 1) { m_stackHeight := s.m_stackHeight + 1 } hnext
              (by
                unfold inIntRange INT_MIN INT_MAX at hs hroom ⊢
                show _ ≤ s.m_stackHeight + 1 + _ ∧ s.m_stackHeight + 1 + _ ≤ _
                omega)]
            congr 2
            · omega
            · show s.m_stackHeight + 1 + _ = _
              ring

/-- Shared: the first loop of a call reaches as many arguments as the call has
at non-literal positions. -/
theorem visited_length {Expression : Type} (literalArgument : Nat → Bool)
    (arguments : List Expression) :
    ((((List.range arguments.length).map fun j => arguments.length - j - 1).filter
        fun i => !literalArgument i).filterMap fun i => arguments[i]?).length
      = (nonLiteralArguments literalArgument arguments).length := by
  have h := filterMap_getElem?_range' (fun i => !literalArgument i) arguments 0
  simp only [Nat.sub_zero, ← List.range_eq_range'] at h
  rw [map_sub_range, List.filter_reverse, List.filterMap_reverse, h]
  simp [nonLiteralArguments, List.enum]

/-- Shared: from a height of type `int`, a loop whose body appends one fixed
instruction stores the wrapped sum of the height and the net effect of the
instruction once per pass. -/
theorem forM_appendInstruction {α : Type} (instructionInfo : Instruction → InstructionInfo)
    (I : Instruction) (l : List α) (s : NoOutputAssembly) (hs : inIntRange s.m_stackHeight) :
    l.forM (fun _ => NoOutputAssembly.appendInstruction instructionInfo I) s
      = (Except.ok (),
          { m_stackHeight :=
              wrapInt (s.m_stackHeight + (l.length : Int) * (instructionInfo I).net) }) := by
  induction l generalizing s with
  | nil => simp [pure, Effect.ret, wrapInt_of_inIntRange _ hs]
  | cons a l ih =>
      rw [List.forM_cons',
        Effect.bind_ok (NoOutputAssembly.appendInstruction instructionInfo I) _ s _ ()
          (appendInstruction_wrapped instructionInfo I s),
        ih { m_stackHeight := wrapInt (s.m_stackHeight + (instructionInfo I).net) }
          (inIntRange_wrapInt _)]
      simp only [List.length_cons, Nat.cast_add, Nat.cast_one, wrapInt_wrapInt_add]
      congr 3
      ring

/-- Shared: the patched callback against a `NoOutputAssembly` at a height `h` of
type `int`, with a visitor that raises the height by 1, POP of net effect `-1`
and PUSH1 of net effect `+1`, and with `h + k` and `h + r` values of `int`,
raises the height by the number `r` of declared returns. -/
theorem generateCode_stackHeight {Expression : Type}
    (instructionInfo : Instruction → InstructionInfo)
    (hpop : (instructionInfo Instruction.POP).net = -1)
    (hpush : (instructionInfo Instruction.PUSH1).net = 1)
    (fn : BuiltinFunctionForEVM NoOutputAssembly Expression) (call : FunctionCall Expression)
    (visit : Expression → Effect NoOutputAssembly Unit)
    (hvisit : ∀ p ∈ nonLiteralArguments fn.literalArgument call.arguments,
      ∀ s : NoOutputAssembly, inIntRange s.m_stackHeight → inIntRange (s.m_stackHeight + 1) →
        visit p.2 s = (Except.ok (), { m_stackHeight := s.m_stackHeight + 1 }))
    (s : NoOutputAssembly) (hs : inIntRange s.m_stackHeight)
    (hk : inIntRange (s.m_stackHeight
      + ((nonLiteralArguments fn.literalArgument call.arguments).length : Nat)))
    (hr : inIntRange (s.m_stackHeight + (fn.returns.length : Nat))) :
    NoOutputEVMDialect.generateCode fn call
        (NoOutputAssembly.asAbstractAssembly instructionInfo) visit s
      = (Except.ok (), { m_stackHeight := s.m_stackHeight + (fn.returns.length : Nat) }) := by
  have hloop := visitArgument_foldlM_stackHeight fn call visit hvisit
    (List.range call.arguments.length) 0 s hs
    (by rw [visited_length]; exact hk)
  rw [visited_length, Nat.zero_add] at hloop
  unfold NoOutputEVMDialect.generateCode
  rw [Effect.bind_ok _ _ s _ _ hloop]
  simp only [NoOutputAssembly.asAbstractAssembly]
  rw [Effect.bind_ok _ _ _ _ ()
    (forM_appendInstruction instructionInfo Instruction.POP _ _ hk)]
  have hconst : (fun _ : Nat => NoOutputAssembly.appendConstant instructionInfo 0)
      = fun _ => NoOutputAssembly.appendInstruction instructionInfo Instruction.PUSH1 := rfl
  rw [hconst]
  rw [forM_appendInstruction instructionInfo Instruction.PUSH1 (List.range fn.returns.length)
    { m_stackHeight := wrapInt (s.m_stackHeight
        + ((nonLiteralArguments fn.literalArgument call.arguments).length : Nat)
        + ((List.range (nonLiteralArguments fn.literalArgument
              call.arguments).length).length : Nat)
          * (instructionInfo Instruction.POP).net) }
    (inIntRange_wrapInt _), hpop, hpush]
  simp only [List.length_range]
  congr 2
  unfold inIntRange INT_MIN INT_MAX at hs hk hr
  unfold wrapInt
  omega

/-- C3 (as stated, refuted): for the entry with two declared returns and a call
with the one argument `arg 0`, from the height `INT_MAX - 1`, the visit raises
the height by 1 (to `INT_MAX`), and the patched `generateCode` ends at
`INT_MIN`, not at `INT_MAX - 1 + 2`. -/
theorem patched_generateCode_stackHeight_counterexample :
    specInstructionInfo Instruction.POP = { args := 1, ret := 0 }
      ∧ (specInstructionInfo Instruction.PUSH1).net = 1
      ∧ inIntRange 2147483646
      ∧ NoOutputAssembly.appendConstant specInstructionInfo 0 ⟨2147483646⟩
          = (Except.ok (), { m_stackHeight := 2147483646 + 1 })
      ∧ NoOutputEVMDialect.generateCode (exampleFunction NoOutputAssembly)
          { arguments := ["arg 0"] }
          (NoOutputAssembly.asAbstractAssembly specInstructionInfo)
          (fun _ => NoOutputAssembly.appendConstant specInstructionInfo 0) ⟨2147483646⟩
        = (Except.ok (), { m_stackHeight := -2147483648 })
      ∧ (NoOutputEVMDialect.generateCode (exampleFunction NoOutputAssembly)
          { arguments := ["arg 0"] }
          (NoOutputAssembly.asAbstractAssembly specInstructionInfo)
          (fun _ => NoOutputAssembly.appendConstant specInstructionInfo 0)
          ⟨2147483646⟩).2.m_stackHeight
        ≠ 2147483646 + ((exampleFunction NoOutputAssembly).returns.length : Nat) :=
  ⟨rfl, rfl, by decide, rfl, rfl, by decide⟩

/-- C3 (amended): for every entry of the table patched by `NoOutputEVMDialect` and
every call, when POP has arity `(1,0)`, a zero push has net effect `+1`, every
visit of an argument at a non-literal position returns having raised the
height by 1, and `h`, `h + k` and `h + r` are values of `int` (`k` the number
of non-literal arguments, `r` the number of declared returns), the patched
`generateCode` run against a `NoOutputAssembly` at height `h` returns normally
with height `h + r`, whatever the number of arguments and whichever positions
are literal. -/
theorem patched_generateCode_stackHeight {Expression : Type}
    (instructionInfo : Instruction → InstructionInfo)
    (hpop : instructionInfo Instruction.POP = { args := 1, ret := 0 })
    (hpush : (instructionInfo Instruction.PUSH1).net = 1)
    (m_functions : List (String × BuiltinFunctionForEVM NoOutputAssembly Expression))
    (fn : String × BuiltinFunctionForEVM NoOutputAssembly Expression)
    (hfn : fn ∈ NoOutputEVMDialect m_functions)
    (call : FunctionCall Expression)
    (visit : Expression → Effect NoOutputAssembly Unit)
    (hvisit : ∀ p ∈ nonLiteralArguments fn.2.literalArgument call.arguments,
      ∀ s : NoOutputAssembly, inIntRange s.m_stackHeight → inIntRange (s.m_stackHeight + 1) →
        visit p.2 s = (Except.ok (), { m_stackHeight := s.m_stackHeight + 1 }))
    (s : NoOutputAssembly) (hs : inIntRange s.m_stackHeight)
    (hk : inIntRange (s.m_stackHeight
      + ((nonLiteralArguments fn.2.literalArgument call.arguments).length : Nat)))
    (hr : inIntRange (s.m_stackHeight + (fn.2.returns.length : Nat))) :
    fn.2.generateCode call (NoOutputAssembly.asAbstractAssembly instructionInfo) visit s
      = (Except.ok (), { m_stackHeight := s.m_stackHeight + (fn.2.returns.length : Nat) }) := by
  obtain ⟨orig, _, rfl⟩ := List.mem_map.mp hfn
  have hpop' : (instructionInfo Instruction.POP).net = -1 := by
    rw [InstructionInfo.net, hpop]
    rfl
  exact generateCode_stackHeight instructionInfo hpop' hpush orig.2 call visit hvisit s hs hk hr

/-- C3 (amended) at the entry with three arguments of which index 1 is literal and
two returns, each visit pushing one value: from height 0 the height ends at
`+2`. -/
theorem patched_generateCode_stackHeight_witness :
    (("f", { exampleFunction NoOutputAssembly with
              generateCode := NoOutputEVMDialect.generateCode (exampleFunction _) }) :
          String × BuiltinFunctionForEVM NoOutputAssembly String)
        ∈ NoOutputEVMDialect [("f", exampleFunction NoOutputAssembly)]
      ∧ NoOutputEVMDialect.generateCode (exampleFunction _) exampleCall
          (NoOutputAssembly.asAbstractAssembly specInstructionInfo)
          (fun _ => NoOutputAssembly.appendConstant specInstructionInfo 0) ⟨0⟩
        = (Except.ok (), { m_stackHeight := 2 }) :=
  ⟨List.mem_singleton.mpr rfl,
    patched_generateCode_stackHeight specInstructionInfo rfl rfl
      [("f", exampleFunction NoOutputAssembly)]
      ("f", { exampleFunction NoOutputAssembly with
                generateCode := NoOutputEVMDialect.generateCode (exampleFunction _) })
      (List.mem_singleton.mpr rfl) exampleCall
      (fun _ => NoOutputAssembly.appendConstant specInstructionInfo 0)
      (fun _ _ s _ hnext =>
        (appendInstruction_wrapped specInstructionInfo Instruction.PUSH1 s).trans
          (by rw [show (specInstructionInfo Instruction.PUSH1).net = 1 from rfl,
            wrapInt_of_inIntRange _ hnext]))
      ⟨0⟩ (by decide) (by decide) (by decide)⟩
